import Mathlib

/-!
Verification of the globasa_minecraft localization tools
(`src/tools/progress.py` and `src/tools/merge.py`) against their
natural-language specification.

Python strings are modelled as `List Char`; JSON objects as association
lists `List (String × Jv)` in file order; `float` ratios as `ℚ`
(the thresholds 0.85 and 0.05 become 85/100 and 5/100).  Regular
expressions are modelled by explicit scanners that mirror the leftmost,
non-overlapping semantics of `re.sub`/`re.findall` on the two concrete
patterns appearing in the source.  `\d` and `str.strip`/`str.lower`
are modelled on their ASCII fragments.
-/

namespace Globasa

/-- A JSON value as `progress.py`/`merge.py` see it: a string (carried as a
character list) or some non-string value, kept opaque up to a tag so that
equality is meaningful. -/
inductive Jv where
  | str (cs : List Char) : Jv
  | other (tag : Nat) : Jv
  deriving DecidableEq, Repr

/-- A parsed JSON object: keys in file order with their values. -/
abbrev Obj : Type := List (String × Jv)

/-- Characters stripped by Python `str.strip()` (ASCII whitespace). -/
def isPySpace (c : Char) : Bool :=
  c = Char.ofNat 32 || c = Char.ofNat 9 || c = Char.ofNat 10 ||
  c = Char.ofNat 13 || c = Char.ofNat 11 || c = Char.ofNat 12

/-- `cs.strip() != ""`: some character survives stripping. -/
def isFilledStr (cs : List Char) : Bool :=
  cs.any (fun c => !(isPySpace c))

/-- `is_filled` from progress.py line 59: the value exists, is a string and
its trimmed form is non-empty. -/
def is_filled (v : Option Jv) : Bool :=
  match v with
  | some (Jv.str cs) => isFilledStr cs
  | _ => false

/-- Whether an optional value is present and a string
(`isinstance(v, str)` on a `dict.get` result). -/
def isStrVal (v : Option Jv) : Bool :=
  match v with
  | some (Jv.str _) => true
  | _ => false

/-- `dict.get(k, None)` on an association list: value of the first entry
with key `k`. -/
def lookupObj (o : Obj) (k : String) : Option Jv :=
  (o.find? (fun p => p.1 == k)).map Prod.snd

/-- `dict.keys()` in file order. -/
def keysOf (o : Obj) : List String :=
  o.map Prod.fst

/-- Conversion-type letters of the placeholder pattern
`%(?:\d+\$)?[sdfoxXeEgGcbhHaAtT]|%%` in progress.py line 51. -/
def convLetters : List Char :=
  ['s', 'd', 'f', 'o', 'x', 'X', 'e', 'E', 'g', 'G', 'c', 'b', 'h', 'H',
   'a', 'A', 't', 'T']

/-- Length of the placeholder-pattern match starting at the head of the
list, if any.  Mirrors the regex alternatives: `%` + conversion letter,
`%` + digits + `$` + conversion letter, or `%%`. -/
def matchPlaceholder (l : List Char) : Option Nat :=
  match l with
  | '%' :: d :: rest2 =>
    if convLetters.contains d then some 2
    else
      let ds := (d :: rest2).takeWhile Char.isDigit
      if ds.length ≠ 0 then
        match (d :: rest2).drop ds.length with
        | '$' :: e :: _ => if convLetters.contains e then some (ds.length + 3) else none
        | _ => none
      else if d = '%' then some 2 else none
  | _ => none

/-- First character of the formatting-code pattern in progress.py line 52.
The source file literally contains the two Thai characters U+0E22 U+0E07
(a mojibake of the section sign `§` read as TIS-620), so the compiled
regex is `ยง.`: those two characters followed by any non-newline one. -/
def sigA : Char := Char.ofNat 3618

/-- Second character of the formatting-code pattern (U+0E07). -/
def sigB : Char := Char.ofNat 3591

/-- Length of the formatting-code match (`ยง.`) starting at the head of
the list, if any; `.` does not match a newline. -/
def matchColor (l : List Char) : Option Nat :=
  match l with
  | a :: b :: c :: _ =>
    if a = sigA ∧ b = sigB ∧ c ≠ Char.ofNat 10 then some 3 else none
  | _ => none

/-- Fuelled scanner for `re.sub(pattern, rep, s)`: at each position try the
matcher; on a match (always of length ≥ 2 for the two patterns above) emit
the replacement and resume after the matched text, otherwise keep the
character.  Fuel bounds the recursion; `reSub` supplies enough. -/
def reSubFuel (m : List Char → Option Nat) (rep : List Char) :
    Nat → List Char → List Char
  | 0, l => l
  | _ + 1, [] => []
  | f + 1, c :: cs =>
    match m (c :: cs) with
    | some n => rep ++ reSubFuel m rep f (cs.drop (n - 1))
    | none => c :: reSubFuel m rep f cs

/-- `re.sub(pattern, rep, s)` via the fuelled scanner. -/
def reSub (m : List Char → Option Nat) (rep : List Char) (l : List Char) :
    List Char :=
  reSubFuel m rep l.length l

/-- Python `str.lower()` on its ASCII fragment. -/
def toLowerList (l : List Char) : List Char :=
  l.map Char.toLower

/-- `normalize_for_tokens` from progress.py lines 63–67: substitute a
single space for each placeholder, then for each formatting code, then
lower-case. -/
def normalize_for_tokens (cs : List Char) : List Char :=
  toLowerList (reSub matchColor [Char.ofNat 32] (reSub matchPlaceholder [Char.ofNat 32] cs))

/-- A character matched by `[a-z0-9]`. -/
def isTokChar (c : Char) : Bool :=
  ('a' ≤ c && c ≤ 'z') || ('0' ≤ c && c ≤ '9')

/-- Accumulator pass extracting the maximal `[a-z0-9]+` runs of a string,
as `re.findall` does; `cur` holds the current run reversed. -/
def runsAux : List Char → List Char → List (List Char)
  | [], cur => if cur = [] then [] else [cur.reverse]
  | c :: cs, cur =>
    if isTokChar c then runsAux cs (c :: cur)
    else if cur = [] then runsAux cs [] else cur.reverse :: runsAux cs []

/-- `re.findall(r"[a-z0-9]+", s)`: the maximal alphanumeric runs in order. -/
def runs (l : List Char) : List (List Char) :=
  runsAux l []

/-- `tokens` from progress.py lines 70–72: the set of maximal alphanumeric
runs of the normalized string. -/
def tokens (cs : List Char) : Finset (List Char) :=
  (runs (normalize_for_tokens cs)).toFinset

/-- `SAME_AS_ENGLISH_WORDS` from progress.py lines 37–41. -/
def SAME_AS_ENGLISH_WORDS : Finset (List Char) :=
  {("blue".data), ("orange".data)}

/-- `filtered_english_tokens` from progress.py lines 75–78: English tokens
minus the allow-list. -/
def filtered_english_tokens (english : List Char) : Finset (List Char) :=
  (tokens english).filter (fun t => t ∉ SAME_AS_ENGLISH_WORDS)

/-- `MOSTLY_ENGLISH_THRESHOLD = 0.85` as a rational. -/
def MOSTLY_ENGLISH_THRESHOLD : ℚ := 85 / 100

/-- `FULLY_TRANSLATED_THRESHOLD = 0.05` as a rational. -/
def FULLY_TRANSLATED_THRESHOLD : ℚ := 5 / 100

/-- `overlap_ratio` from progress.py lines 81–92, with the float division
modelled exactly in `ℚ`: 0 when the filtered English token set is empty,
otherwise the fraction of filtered English tokens present in the
candidate. -/
def overlap_frac (english candidate : List Char) : ℚ :=
  let e := filtered_english_tokens english
  if e = ∅ then 0
  else ((e ∩ tokens candidate).card : ℚ) / (e.card : ℚ)

/-- The five classification outcomes of the overlap analysis in
progress.py lines 158–176. -/
inductive Cls where
  | identicalEnglish : Cls
  | identicalAllowed : Cls
  | mostlyEnglish : Cls
  | partlyTranslated : Cls
  | fullyTranslated : Cls
  deriving DecidableEq, Repr

/-- Per-key classification of the overlap loop, progress.py lines 147–176:
`none` when the key is skipped (candidate or base value not a string, or
candidate not filled), otherwise the classification the loop assigns. -/
def classifyKey (en glb : Obj) (k : String) : Option Cls :=
  match lookupObj glb k, lookupObj en k with
  | some (Jv.str gv), some (Jv.str ev) =>
    if isFilledStr gv then
      if gv = ev then
        if filtered_english_tokens ev ≠ ∅ then some Cls.identicalEnglish
        else some Cls.identicalAllowed
      else
        let r := overlap_frac ev gv
        if MOSTLY_ENGLISH_THRESHOLD ≤ r then some Cls.mostlyEnglish
        else if r ≤ FULLY_TRANSLATED_THRESHOLD then some Cls.fullyTranslated
        else some Cls.partlyTranslated
    else none
  | _, _ => none

/-- Number of keys of `K` the loop classifies as `c`. -/
def bucketCount (en glb : Obj) (K : Finset String) (c : Cls) : Nat :=
  (K.filter (fun k => classifyKey en glb k = some c)).card

/-- Sum of the five bucket sizes. -/
def bucketSum (en glb : Obj) (K : Finset String) : Nat :=
  bucketCount en glb K Cls.identicalEnglish +
  bucketCount en glb K Cls.identicalAllowed +
  bucketCount en glb K Cls.mostlyEnglish +
  bucketCount en glb K Cls.partlyTranslated +
  bucketCount en glb K Cls.fullyTranslated

/-- Keys of `K` that are filled in the candidate file, regardless of the
base file — the basic-mode statistic of progress.py lines 112–117. -/
def filledSet (glb : Obj) (K : Finset String) : Finset String :=
  K.filter (fun k => is_filled (lookupObj glb k) = true)

/-- Keys of `K` that are filled and whose base value is a string — exactly
the keys the overlap loop classifies. -/
def classifiedSet (en glb : Obj) (K : Finset String) : Finset String :=
  K.filter (fun k => is_filled (lookupObj glb k) = true ∧ isStrVal (lookupObj en k) = true)

/-- Keys appended to `partial_examples` (progress.py lines 171–178) when
the loop enumerates the reference keys in the order `ks`: exactly the keys
classified mostly-English or partially-translated. -/
def exampleKeys (en glb : Obj) (ks : List String) : List String :=
  ks.filter (fun k =>
    decide (classifyKey en glb k = some Cls.mostlyEnglish ∨
            classifyKey en glb k = some Cls.partlyTranslated))

/-- The counters printed by the overlap analysis; `fullyTranslatedCount`
also counts the identical-but-allowed keys (progress.py lines 163–164). -/
structure OverlapStats where
  identicalEnglishCount : Nat
  identicalAllowedCount : Nat
  mostlyEnglishCount : Nat
  partlyTranslatedCount : Nat
  fullyTranslatedCount : Nat
  deriving DecidableEq, Repr

/-- The overlap counters computed over the reference key set. -/
def overlapStats (en glb : Obj) (K : Finset String) : OverlapStats :=
  { identicalEnglishCount := bucketCount en glb K Cls.identicalEnglish
    identicalAllowedCount := bucketCount en glb K Cls.identicalAllowed
    mostlyEnglishCount := bucketCount en glb K Cls.mostlyEnglish
    partlyTranslatedCount := bucketCount en glb K Cls.partlyTranslated
    fullyTranslatedCount := bucketCount en glb K Cls.fullyTranslated +
      bucketCount en glb K Cls.identicalAllowed }

/-- The report assembled by `main` in progress.py: the basic statistics and,
when the English file is enabled, the overlap counters. -/
structure Report where
  total : Nat
  filledCount : Nat
  missingCount : Nat
  overlap : Option OverlapStats
  deriving DecidableEq, Repr

/-- `main` of progress.py as a function of the (possibly missing) file
contents: `none` for a path that does not exist.  Fatal conditions become
`Except.error` with the message `main` raises via `SystemExit`, in the
order the checks run (lines 96–107 and 134–136). -/
def progressMain (refPath glbPath enPath : String) (ref glb : Option Obj)
    (enEnabled : Bool) (en : Option Obj) : Except String Report :=
  match ref with
  | none => Except.error ("Reference file not found: " ++ refPath)
  | some refO =>
    match glb with
    | none => Except.error ("Lang file not found: " ++ glbPath)
    | some glbO =>
      let K := (keysOf refO).toFinset
      if K.card = 0 then Except.error ("Reference file has no keys: " ++ refPath)
      else
        if enEnabled then
          match en with
          | none => Except.error ("English file not found: " ++ enPath)
          | some enO =>
            Except.ok
              { total := K.card
                filledCount := (filledSet glbO K).card
                missingCount := K.card - (filledSet glbO K).card
                overlap := some (overlapStats enO glbO K) }
        else
          Except.ok
            { total := K.card
              filledCount := (filledSet glbO K).card
              missingCount := K.card - (filledSet glbO K).card
              overlap := none }

/-- The two fallback strategies of merge.py lines 24–26: the active line
writes an empty string, the commented alternative the reference value
(spec §4.1 makes the pair a configurable mode). -/
inductive Mode where
  | blank : Mode
  | baseValue : Mode
  deriving DecidableEq, Repr

/-- The configured fallback for a reference entry whose candidate value is
missing or empty. -/
def fallbackVal (mode : Mode) (v : Jv) : Jv :=
  match mode with
  | Mode.blank => Jv.str []
  | Mode.baseValue => v

/-- Value the merge loop writes for the reference entry `(k, v)`:
the candidate value when present, a string and non-blank (merge.py
line 20), otherwise the fallback. -/
def mergedEntryVal (mode : Mode) (glb : Obj) (k : String) (v : Jv) : Jv :=
  match lookupObj glb k with
  | some (Jv.str cs) => if isFilledStr cs then Jv.str cs else fallbackVal mode v
  | _ => fallbackVal mode v

/-- The merge loop of merge.py lines 14–27: one output entry per reference
entry, in reference order. -/
def mergeObjs (mode : Mode) (en glb : Obj) : Obj :=
  en.map (fun p => (p.1, mergedEntryVal mode glb p.1 p.2))

/-- `main` of merge.py as a function of the (possibly missing) file
contents.  merge.py performs no existence checks; a missing file surfaces
as the uncaught `FileNotFoundError` of `Path.read_text`, whose message
names the path — modelled as the corresponding `Except.error`. -/
def mergeMain (enPath glbPath : String) (mode : Mode) (en glb : Option Obj) :
    Except String Obj :=
  match en with
  | none => Except.error ("No such file or directory: " ++ enPath)
  | some enO =>
    match glb with
    | none => Except.error ("No such file or directory: " ++ glbPath)
    | some glbO => Except.ok (mergeObjs mode enO glbO)

/-- Whether an `Except` result is a success. -/
def exceptOk {α : Type} (e : Except String α) : Bool :=
  match e with
  | Except.ok _ => true
  | Except.error _ => false

section MergeLemmas

/-- Lookup on a cons cell compares the head key first. -/
theorem lookupObj_cons (a : String) (v : Jv) (o : Obj) (k : String) :
    lookupObj ((a, v) :: o) k = if a = k then some v else lookupObj o k := by
  by_cases h : a = k
  · subst h
    simp [lookupObj, List.find?_cons]
  · simp [lookupObj, List.find?_cons, h]

/-- The merge loop on a cons cell. -/
theorem mergeObjs_cons (mode : Mode) (a : String) (v : Jv) (en glb : Obj) :
    mergeObjs mode ((a, v) :: en) glb =
      (a, mergedEntryVal mode glb a v) :: mergeObjs mode en glb := rfl

/-- Looking a key up in the merge output applies the merged-entry value to
the reference's value for that key. -/
theorem lookupObj_mergeObjs (mode : Mode) (en glb : Obj) (k : String) :
    lookupObj (mergeObjs mode en glb) k =
      (lookupObj en k).map (mergedEntryVal mode glb k) := by
  induction en with
  | nil => rfl
  | cons p en ih =>
    obtain ⟨a, v⟩ := p
    rw [mergeObjs_cons, lookupObj_cons, lookupObj_cons]
    by_cases h : a = k
    · subst h
      simp
    · simp [h, ih]

/-- With distinct keys, membership determines the lookup result. -/
theorem lookupObj_of_mem (en : Obj) (k : String) (v : Jv)
    (hnd : (keysOf en).Nodup) (hm : (k, v) ∈ en) : lookupObj en k = some v := by
  induction en with
  | nil => cases hm
  | cons p en ih =>
    obtain ⟨a, w⟩ := p
    have hnd' : a ∉ keysOf en ∧ (keysOf en).Nodup := by
      simpa [keysOf, List.nodup_cons] using hnd
    rcases List.mem_cons.mp hm with heq | hm'
    · rw [lookupObj_cons, if_pos (congrArg Prod.fst heq.symm)]
      exact congrArg some (congrArg Prod.snd heq.symm)
    · have hk : ¬(a = k) := by
        intro h
        exact hnd'.1 (h ▸ List.mem_map.mpr ⟨(k, v), hm', rfl⟩)
      rw [lookupObj_cons, if_neg hk]
      exact ih hnd'.2 hm'

/-- Re-merging a value the merge already produced reproduces it. -/
theorem mergedEntryVal_stable (mode : Mode) (glb : Obj) (k : String) (v : Jv)
    (M : Obj) (hM : lookupObj M k = some (mergedEntryVal mode glb k v)) :
    mergedEntryVal mode M k v = mergedEntryVal mode glb k v := by
  have hcases : (∃ cs, mergedEntryVal mode glb k v = Jv.str cs ∧ isFilledStr cs = true)
      ∨ mergedEntryVal mode glb k v = fallbackVal mode v := by
    cases hg : lookupObj glb k with
    | none => right; simp [mergedEntryVal, hg]
    | some w =>
      cases w with
      | str cs =>
        by_cases hf : isFilledStr cs = true
        · exact Or.inl ⟨cs, by simp [mergedEntryVal, hg, hf], hf⟩
        · right; simp [mergedEntryVal, hg, hf]
      | other t => right; simp [mergedEntryVal, hg]
  rcases hcases with ⟨cs, hw, hf⟩ | hw
  · rw [hw] at hM
    rw [hw]
    simp [mergedEntryVal, hM, hf]
  · rw [hw] at hM
    rw [hw]
    cases mode with
    | blank =>
      simp [mergedEntryVal, hM, fallbackVal, isFilledStr]
    | baseValue =>
      cases v with
      | str cs2 =>
        by_cases hf2 : isFilledStr cs2 = true
        · simp [mergedEntryVal, hM, fallbackVal, hf2]
        · simp [mergedEntryVal, hM, fallbackVal, hf2]
      | other t => simp [mergedEntryVal, hM, fallbackVal]

end MergeLemmas

/-- C4: the merger maps each reference key to the localized value when the
latter exists, is a string and is non-blank after trimming, and otherwise
to the configured fallback (empty string in blank mode, the reference value
in base-value mode), never to anything else. -/
theorem claim4_merge_values (mode : Mode) (en glb : Obj) (k : String) (v : Jv)
    (h : lookupObj en k = some v) :
    (is_filled (lookupObj glb k) = true →
      lookupObj (mergeObjs mode en glb) k = lookupObj glb k)
    ∧ (is_filled (lookupObj glb k) = false →
      lookupObj (mergeObjs mode en glb) k = some (fallbackVal mode v)) := by
  rw [lookupObj_mergeObjs, h]
  constructor
  · intro hf
    cases hg : lookupObj glb k with
    | none => rw [hg] at hf; simp [is_filled] at hf
    | some w =>
      cases w with
      | str cs =>
        rw [hg] at hf
        simp only [is_filled] at hf
        simp [Option.map, mergedEntryVal, hg, hf]
      | other t => rw [hg] at hf; simp [is_filled] at hf
  · intro hf
    cases hg : lookupObj glb k with
    | none => simp [Option.map, mergedEntryVal, hg]
    | some w =>
      cases w with
      | str cs =>
        rw [hg] at hf
        simp only [is_filled] at hf
        simp [Option.map, mergedEntryVal, hg, hf]
      | other t => simp [Option.map, mergedEntryVal, hg]

/-- C4 witness: concrete instantiation of the fallback branch. -/
theorem claim4_merge_values_witness :
    lookupObj (mergeObjs Mode.baseValue [("a", Jv.str ("Hi".data))] []) "a" =
      some (Jv.str ("Hi".data)) :=
  (claim4_merge_values Mode.baseValue [("a", Jv.str ("Hi".data))] [] "a"
    (Jv.str ("Hi".data)) (by decide)).2 (by decide)

/-- C5: the merge output's key sequence equals the reference key sequence
in length and order, so keys absent from the reference never appear. -/
theorem claim5_merge_key_order (mode : Mode) (en glb : Obj) :
    keysOf (mergeObjs mode en glb) = keysOf en ∧
    ∀ k, k ∉ keysOf en → k ∉ keysOf (mergeObjs mode en glb) := by
  have h : keysOf (mergeObjs mode en glb) = keysOf en := by
    simp only [keysOf, mergeObjs, List.map_map]
    rfl
  exact ⟨h, fun k hk => by rw [h]; exact hk⟩

/-- C5 witness: an obsolete candidate key does not survive the merge. -/
theorem claim5_merge_key_order_witness :
    "obsolete" ∉ keysOf (mergeObjs Mode.blank [("a", Jv.str ("x".data))]
      [("obsolete", Jv.str ("y".data))]) :=
  (claim5_merge_key_order Mode.blank [("a", Jv.str ("x".data))]
    [("obsolete", Jv.str ("y".data))]).2 ("obsolete") (by decide)

/-- C7: merging again with the first output as candidate reproduces the
first output, in either fallback mode, for maps (distinct keys). -/
theorem claim7_merge_idem (mode : Mode) (en glb : Obj)
    (hnd : (keysOf en).Nodup) :
    mergeObjs mode en (mergeObjs mode en glb) = mergeObjs mode en glb := by
  apply List.map_congr_left
  intro p hp
  have hlk : lookupObj en p.1 = some p.2 := lookupObj_of_mem en p.1 p.2 hnd hp
  have hM : lookupObj (mergeObjs mode en glb) p.1 =
      some (mergedEntryVal mode glb p.1 p.2) := by
    rw [lookupObj_mergeObjs, hlk]; rfl
  rw [mergedEntryVal_stable mode glb p.1 p.2 _ hM]

/-- C7 witness: idempotence at a concrete reference/candidate pair. -/
theorem claim7_merge_idem_witness :
    mergeObjs Mode.blank [("a", Jv.str ("Hello".data)), ("b", Jv.str ("World".data))]
        (mergeObjs Mode.blank
          [("a", Jv.str ("Hello".data)), ("b", Jv.str ("World".data))]
          [("a", Jv.str ("Saluton".data))]) =
      mergeObjs Mode.blank
        [("a", Jv.str ("Hello".data)), ("b", Jv.str ("World".data))]
        [("a", Jv.str ("Saluton".data))] :=
  claim7_merge_idem Mode.blank
    [("a", Jv.str ("Hello".data)), ("b", Jv.str ("World".data))]
    [("a", Jv.str ("Saluton".data))] (by decide)

/-- C8: the overlap ratio always lies in [0, 1], and is 0 whenever the
filtered base token set is empty. -/
theorem claim8_overlap_bounded (e c : List Char) :
    0 ≤ overlap_frac e c ∧ overlap_frac e c ≤ 1 ∧
      (filtered_english_tokens e = ∅ → overlap_frac e c = 0) := by
  by_cases h : filtered_english_tokens e = ∅
  · simp [overlap_frac, h]
  · have hpos : 0 < ((filtered_english_tokens e).card : ℚ) := by
      exact_mod_cast Finset.card_pos.mpr (Finset.nonempty_iff_ne_empty.mpr h)
    have hle : ((filtered_english_tokens e ∩ tokens c).card : ℚ) ≤
        ((filtered_english_tokens e).card : ℚ) := by
      exact_mod_cast Finset.card_le_card Finset.inter_subset_left
    refine ⟨?_, ?_, fun hh => absurd hh h⟩
    · simp only [overlap_frac, if_neg h]
      exact div_nonneg (by positivity) (le_of_lt hpos)
    · simp only [overlap_frac, if_neg h]
      exact (div_le_one hpos).mpr hle

/-- C8 witness: a base string made of an allow-listed word only gives
ratio 0 against an arbitrary candidate. -/
theorem claim8_overlap_bounded_witness :
    overlap_frac ("Blue".data) ("whatever words".data) = 0 :=
  (claim8_overlap_bounded ("Blue".data) ("whatever words".data)).2.2 (by decide)

/-- C9: the overlap ratio of a string with itself is 1 whenever its
filtered token set is non-empty. -/
theorem claim9_overlap_self (s : List Char)
    (h : filtered_english_tokens s ≠ ∅) : overlap_frac s s = 1 := by
  have hsub : filtered_english_tokens s ⊆ tokens s := Finset.filter_subset _ _
  have hinter : filtered_english_tokens s ∩ tokens s = filtered_english_tokens s :=
    Finset.inter_eq_left.mpr hsub
  have hpos : ((filtered_english_tokens s).card : ℚ) ≠ 0 := by
    exact_mod_cast Finset.card_ne_zero.mpr (Finset.nonempty_iff_ne_empty.mpr h)
  simp only [overlap_frac, if_neg h, hinter]
  exact div_self hpos

/-- C9 witness: self-overlap of a concrete non-allow-listed string. -/
theorem claim9_overlap_self_witness :
    overlap_frac ("Hello World".data) ("Hello World".data) = 1 :=
  claim9_overlap_self ("Hello World".data) (by decide)

/-- C2: for a filled key with a string base value, equality with the base
classifies by emptiness of the filtered base tokens, and otherwise the
classification is determined by the overlap ratio and the two
thresholds. -/
theorem claim2_classification (en glb : Obj) (k : String) (gv ev : List Char)
    (hg : lookupObj glb k = some (Jv.str gv))
    (he : lookupObj en k = some (Jv.str ev))
    (hf : isFilledStr gv = true) :
    (gv = ev →
      classifyKey en glb k =
        some (if filtered_english_tokens ev ≠ ∅ then Cls.identicalEnglish
              else Cls.identicalAllowed))
    ∧ (gv ≠ ev →
      (MOSTLY_ENGLISH_THRESHOLD ≤ overlap_frac ev gv →
        classifyKey en glb k = some Cls.mostlyEnglish)
      ∧ (overlap_frac ev gv ≤ FULLY_TRANSLATED_THRESHOLD →
        classifyKey en glb k = some Cls.fullyTranslated)
      ∧ (FULLY_TRANSLATED_THRESHOLD < overlap_frac ev gv →
          overlap_frac ev gv < MOSTLY_ENGLISH_THRESHOLD →
        classifyKey en glb k = some Cls.partlyTranslated)) := by
  constructor
  · intro heq
    subst heq
    by_cases hemp : filtered_english_tokens gv ≠ ∅
    · simp [classifyKey, hg, he, hf, hemp]
    · simp [classifyKey, hg, he, hf, hemp]
  · intro hne
    refine ⟨?_, ?_, ?_⟩
    · intro hr
      simp [classifyKey, hg, he, hf, hne, hr]
    · intro hr
      have hnm : ¬ (MOSTLY_ENGLISH_THRESHOLD ≤ overlap_frac ev gv) := by
        rw [MOSTLY_ENGLISH_THRESHOLD]
        rw [FULLY_TRANSLATED_THRESHOLD] at hr
        intro hcon
        linarith
      simp [classifyKey, hg, he, hf, hne, hnm, hr]
    · intro hlo hhi
      have hnm : ¬ (MOSTLY_ENGLISH_THRESHOLD ≤ overlap_frac ev gv) := not_le.mpr hhi
      have hnf : ¬ (overlap_frac ev gv ≤ FULLY_TRANSLATED_THRESHOLD) := not_le.mpr hlo
      simp [classifyKey, hg, he, hf, hne, hnm, hnf]

/-- C2 witness: a fully-translated concrete key (zero overlap). -/
theorem claim2_classification_witness :
    classifyKey [("a", Jv.str ("Hello %s".data))] [("a", Jv.str ("Bonjour %s".data))]
      "a" = some Cls.fullyTranslated := by
  have hr : overlap_frac ("Hello %s".data) ("Bonjour %s".data) ≤
      FULLY_TRANSLATED_THRESHOLD := by
    have hint : filtered_english_tokens ("Hello %s".data) ∩
        tokens ("Bonjour %s".data) = ∅ := by decide
    have hne : ¬ (filtered_english_tokens ("Hello %s".data) = ∅) := by decide
    simp only [overlap_frac, if_neg hne, hint, Finset.card_empty, Nat.cast_zero,
      zero_div, FULLY_TRANSLATED_THRESHOLD]
    norm_num
  exact ((claim2_classification [("a", Jv.str ("Hello %s".data))]
      [("a", Jv.str ("Bonjour %s".data))] "a" ("Bonjour %s".data) ("Hello %s".data)
      (by decide) (by decide) (by decide)).2 (by decide)).2.1 hr

/-- C10: a filled key whose base value is absent or not a string is
skipped: classified into no bucket, absent from the example list, yet
still counted as filled by the basic statistics. -/
theorem claim10_silent_skip (en glb : Obj) (k : String)
    (hf : is_filled (lookupObj glb k) = true)
    (hs : isStrVal (lookupObj en k) = false) :
    classifyKey en glb k = none
    ∧ (∀ ks : List String, k ∉ exampleKeys en glb ks)
    ∧ (∀ (K : Finset String) (c : Cls),
        k ∉ K.filter (fun x => classifyKey en glb x = some c))
    ∧ (∀ K : Finset String, k ∈ K → k ∈ filledSet glb K) := by
  have hab : classifyKey en glb k = none := by
    cases hg : lookupObj glb k with
    | none => rw [hg] at hf; simp [is_filled] at hf
    | some w =>
      cases w with
      | str gv =>
        cases he : lookupObj en k with
        | none => simp [classifyKey, hg, he]
        | some u =>
          cases u with
          | str ev => rw [he] at hs; simp [isStrVal] at hs
          | other t => simp [classifyKey, hg, he]
      | other t => rw [hg] at hf; simp [is_filled] at hf
  refine ⟨hab, ?_, ?_, ?_⟩
  · intro ks hmem
    have hdec := (List.mem_filter.mp hmem).2
    have hor := of_decide_eq_true hdec
    rcases hor with h1 | h1 <;> rw [hab] at h1 <;> cases h1
  · intro K c hmem
    have h1 := (Finset.mem_filter.mp hmem).2
    rw [hab] at h1
    cases h1
  · intro K hK
    exact Finset.mem_filter.mpr ⟨hK, hf⟩

/-- C10 witness: with an empty base file, a filled key is unclassified. -/
theorem claim10_silent_skip_witness :
    classifyKey [] [("a", Jv.str ("Hola".data))] "a" = none :=
  (claim10_silent_skip [] [("a", Jv.str ("Hola".data))] "a"
    (by decide) (by decide)).1

section PartitionLemmas

/-- The overlap loop classifies a key exactly when the candidate value is
filled and the base value is a string. -/
theorem classifyKey_isSome_iff (en glb : Obj) (k : String) :
    (classifyKey en glb k).isSome = true ↔
      (is_filled (lookupObj glb k) = true ∧ isStrVal (lookupObj en k) = true) := by
  cases hg : lookupObj glb k with
  | none => simp [classifyKey, is_filled, hg]
  | some w =>
    cases w with
    | str gv =>
      cases he : lookupObj en k with
      | none => simp [classifyKey, is_filled, isStrVal, hg, he]
      | some u =>
        cases u with
        | str ev =>
          by_cases hf : isFilledStr gv = true
          · constructor
            · intro _
              exact ⟨by simp [is_filled, hg, hf], by simp [isStrVal, he]⟩
            · intro _
              by_cases heq : gv = ev
              · by_cases hemp : filtered_english_tokens ev ≠ ∅ <;>
                  simp [classifyKey, hg, he, hf, heq, hemp, heq ▸ hf]
              · by_cases hm : MOSTLY_ENGLISH_THRESHOLD ≤ overlap_frac ev gv
                · simp [classifyKey, hg, he, hf, heq, hm]
                · by_cases hfu : overlap_frac ev gv ≤ FULLY_TRANSLATED_THRESHOLD <;>
                    simp [classifyKey, hg, he, hf, heq, hm, hfu]
          · simp [classifyKey, is_filled, hg, he, hf]
        | other t => simp [classifyKey, is_filled, isStrVal, hg, he]
    | other t => simp [classifyKey, is_filled, hg]

/-- The five bucket sizes add up to the number of classified keys. -/
theorem bucketSum_eq_classified (en glb : Obj) (K : Finset String) :
    bucketSum en glb K =
      (K.filter (fun k => (classifyKey en glb k).isSome = true)).card := by
  classical
  induction K using Finset.induction_on with
  | empty => simp [bucketSum, bucketCount]
  | @insert a s ha ih =>
    have h1 : a ∉ s.filter (fun k => classifyKey en glb k = some Cls.identicalEnglish) :=
      fun hm => ha (Finset.mem_of_mem_filter _ hm)
    have h2 : a ∉ s.filter (fun k => classifyKey en glb k = some Cls.identicalAllowed) :=
      fun hm => ha (Finset.mem_of_mem_filter _ hm)
    have h3 : a ∉ s.filter (fun k => classifyKey en glb k = some Cls.mostlyEnglish) :=
      fun hm => ha (Finset.mem_of_mem_filter _ hm)
    have h4 : a ∉ s.filter (fun k => classifyKey en glb k = some Cls.partlyTranslated) :=
      fun hm => ha (Finset.mem_of_mem_filter _ hm)
    have h5 : a ∉ s.filter (fun k => classifyKey en glb k = some Cls.fullyTranslated) :=
      fun hm => ha (Finset.mem_of_mem_filter _ hm)
    have h6 : a ∉ s.filter (fun k => (classifyKey en glb k).isSome = true) :=
      fun hm => ha (Finset.mem_of_mem_filter _ hm)
    simp only [bucketSum, bucketCount] at ih
    rcases hc : classifyKey en glb a with _ | c
    · simp [bucketSum, bucketCount, Finset.filter_insert, hc]
      omega
    · cases c <;>
        simp [bucketSum, bucketCount, Finset.filter_insert, hc,
          Finset.card_insert_of_not_mem h1, Finset.card_insert_of_not_mem h2,
          Finset.card_insert_of_not_mem h3, Finset.card_insert_of_not_mem h4,
          Finset.card_insert_of_not_mem h5, Finset.card_insert_of_not_mem h6] <;>
        omega

end PartitionLemmas

/-- C1 counterexample: a key filled in the candidate but absent from the
base file is counted as filled yet lands in none of the five buckets, so
the bucket sizes do not add up to the number of filled keys. -/
theorem claim1_counterexample :
    is_filled (lookupObj [("a", Jv.str ("Hello".data))] "a") = true
    ∧ bucketSum [] [("a", Jv.str ("Hello".data))] {"a"} = 0
    ∧ (filledSet [("a", Jv.str ("Hello".data))] {"a"}).card = 1 := by
  refine ⟨by decide, ?_, by decide⟩
  rw [bucketSum_eq_classified]
  decide

/-- C1 amended: every key that is filled and whose base value is a string
is classified into exactly one of the five buckets, and the bucket sizes
add up to the number of such keys. -/
theorem claim1_partition (en glb : Obj) :
    (∀ k, is_filled (lookupObj glb k) = true → isStrVal (lookupObj en k) = true →
      (classifyKey en glb k).isSome = true
      ∧ ∀ c c', classifyKey en glb k = some c → classifyKey en glb k = some c' →
          c = c')
    ∧ ∀ K : Finset String, bucketSum en glb K = (classifiedSet en glb K).card := by
  constructor
  · intro k hf hs
    refine ⟨(classifyKey_isSome_iff en glb k).mpr ⟨hf, hs⟩, ?_⟩
    intro c c' hc hc'
    rw [hc] at hc'
    exact Option.some.inj hc'
  · intro K
    rw [bucketSum_eq_classified]
    rcases Finset.filter_congr (fun k _ => (classifyKey_isSome_iff en glb k)) with h
    rw [classifiedSet, h]

/-- C1 witness: partition at a concrete classified key. -/
theorem claim1_partition_witness :
    (classifyKey [("a", Jv.str ("Hello".data))] [("a", Jv.str ("Hello".data))]
      "a").isSome = true
    ∧ bucketSum [("a", Jv.str ("Hello".data))] [("a", Jv.str ("Hello".data))]
        {"a"} =
      (classifiedSet [("a", Jv.str ("Hello".data))] [("a", Jv.str ("Hello".data))]
        {"a"}).card :=
  ⟨((claim1_partition [("a", Jv.str ("Hello".data))]
      [("a", Jv.str ("Hello".data))]).1 ("a") (by decide) (by decide)).1,
   (claim1_partition [("a", Jv.str ("Hello".data))]
      [("a", Jv.str ("Hello".data))]).2 {"a"}⟩

section TokenLemmas

/-- The tokenizer of C3 taken at the spec's word "removing": placeholders
and formatting codes deleted outright (empty replacement) instead of being
replaced by a space, then lower-cased and split into maximal runs. -/
def tokensRemoved (cs : List Char) : Finset (List Char) :=
  (runs (toLowerList (reSub matchColor [] (reSub matchPlaceholder [] cs)))).toFinset

/-- Direct transcription of "extract all maximal runs of ASCII
letters/digits": take the leading run, drop it, recurse. -/
def runsSpec : List Char → List (List Char)
  | [] => []
  | c :: cs =>
    if isTokChar c then (c :: cs.takeWhile isTokChar) :: runsSpec (cs.dropWhile isTokChar)
    else runsSpec cs
termination_by l => l.length
decreasing_by
  · have h := List.Sublist.length_le (List.dropWhile_sublist (l := cs) isTokChar)
    simp only [List.length_cons]
    omega
  · simp [Nat.lt_succ_self]

/-- The tokenizer with each placeholder and each formatting code replaced
by a single space (the amended reading of C3), with the runs extracted by
the direct transcription `runsSpec`. -/
def tokensSpaced (cs : List Char) : Finset (List Char) :=
  (runsSpec (toLowerList (reSub matchColor [Char.ofNat 32]
    (reSub matchPlaceholder [Char.ofNat 32] cs)))).toFinset

/-- With a non-empty current run, the accumulator pass closes the run by
extending it with the leading token characters of the rest. -/
theorem runsAux_ne (l : List Char) : ∀ cur : List Char, cur ≠ [] →
    runsAux l cur =
      (cur.reverse ++ l.takeWhile isTokChar) :: runsAux (l.dropWhile isTokChar) [] := by
  induction l with
  | nil =>
    intro cur hc
    simp [runsAux, hc]
  | cons a l ih =>
    intro cur hc
    by_cases ha : isTokChar a = true
    · rw [List.takeWhile_cons_of_pos ha, List.dropWhile_cons_of_pos ha]
      have hstep : runsAux (a :: l) cur = runsAux l (a :: cur) := by
        simp [runsAux, ha]
      rw [hstep, ih (a :: cur) (by simp)]
      simp
    · rw [List.takeWhile_cons_of_neg (by simp [ha]),
        List.dropWhile_cons_of_neg (by simp [ha])]
      have hstep : runsAux (a :: l) cur = cur.reverse :: runsAux l [] := by
        simp [runsAux, ha, hc]
      have hstep2 : runsAux (a :: l) [] = runsAux l [] := by
        simp [runsAux, ha]
      rw [hstep, hstep2]
      simp

/-- The direct transcription and the accumulator pass agree. -/
theorem runsSpec_eq_runs (l : List Char) : runsSpec l = runs l := by
  induction l using runsSpec.induct with
  | case1 => simp [runsSpec, runs, runsAux]
  | case2 c cs hc ih =>
    rw [runsSpec]
    rw [if_pos hc, ih]
    have hstep : runs (c :: cs) = runsAux cs [c] := by
      simp [runs, runsAux, hc]
    rw [hstep, runsAux_ne cs [c] (by simp)]
    simp [runs]
  | case3 c cs hc ih =>
    rw [runsSpec, if_neg hc, ih]
    simp [runs, runsAux, hc]

end TokenLemmas

/-- C3 counterexample: deleting a placeholder (as the claim words it)
fuses the surrounding letters into one token, while the code substitutes
a space and keeps them separate. -/
theorem claim3_counterexample :
    tokens ("a%sb".data) ≠ tokensRemoved ("a%sb".data) := by decide

/-- C3 amended: the token set equals the maximal alphanumeric runs of the
string obtained by replacing each placeholder, then each formatting-code
occurrence, with a single space, and lower-casing. -/
theorem claim3_tokens_spaced (cs : List Char) : tokens cs = tokensSpaced cs := by
  unfold tokens tokensSpaced normalize_for_tokens
  rw [runsSpec_eq_runs]

/-- C6 counterexample: the merger run on a reference that parses but has
zero keys terminates normally (writing an empty object) instead of
aborting, against the claim that an empty reference is fatal for both
tools. -/
theorem claim6_counterexample :
    mergeMain ("reference/en_us.json") ("assets/minecraft/lang/glb_001.json")
      Mode.blank (some []) (some [("a", Jv.str ("x".data))]) = Except.ok [] := rfl

/-- C6 amended: a missing input file is fatal for both tools with a
message naming the path; a zero-key reference is fatal for the analyzer
but not for the merger; non-string or absent values are treated as not
filled and never cause an error. -/
theorem claim6_fatal_conditions :
    (∀ (eP gP : String) (mode : Mode) (glb : Option Obj),
      mergeMain eP gP mode none glb =
        Except.error ("No such file or directory: " ++ eP))
    ∧ (∀ (eP gP : String) (mode : Mode) (en : Obj),
      mergeMain eP gP mode (some en) none =
        Except.error ("No such file or directory: " ++ gP))
    ∧ (∀ (eP gP : String) (mode : Mode) (en glb : Obj),
      exceptOk (mergeMain eP gP mode (some en) (some glb)) = true)
    ∧ (∀ (rP gP eP : String) (glb : Option Obj) (b : Bool) (en : Option Obj),
      progressMain rP gP eP none glb b en =
        Except.error ("Reference file not found: " ++ rP))
    ∧ (∀ (rP gP eP : String) (ref : Obj) (b : Bool) (en : Option Obj),
      progressMain rP gP eP (some ref) none b en =
        Except.error ("Lang file not found: " ++ gP))
    ∧ (∀ (rP gP eP : String) (ref glb : Obj) (b : Bool) (en : Option Obj),
      (keysOf ref).toFinset.card = 0 →
      progressMain rP gP eP (some ref) (some glb) b en =
        Except.error ("Reference file has no keys: " ++ rP))
    ∧ (∀ (rP gP eP : String) (ref glb : Obj),
      (keysOf ref).toFinset.card ≠ 0 →
      progressMain rP gP eP (some ref) (some glb) true none =
        Except.error ("English file not found: " ++ eP))
    ∧ (∀ (rP gP eP : String) (ref glb en : Obj),
      (keysOf ref).toFinset.card ≠ 0 →
      exceptOk (progressMain rP gP eP (some ref) (some glb) true (some en)) = true)
    ∧ (∀ (rP gP eP : String) (ref glb : Obj) (en : Option Obj),
      (keysOf ref).toFinset.card ≠ 0 →
      exceptOk (progressMain rP gP eP (some ref) (some glb) false en) = true)
    ∧ (∀ t : Nat, is_filled (some (Jv.other t)) = false)
    ∧ is_filled none = false := by
  refine ⟨fun eP gP mode glb => rfl, fun eP gP mode en => rfl,
    fun eP gP mode en glb => rfl, fun rP gP eP glb b en => rfl,
    fun rP gP eP ref b en => rfl, ?_, ?_, ?_, ?_, fun t => rfl, rfl⟩
  · intro rP gP eP ref glb b en hz
    simp [progressMain, hz]
  · intro rP gP eP ref glb hnz
    simp [progressMain, hnz]
  · intro rP gP eP ref glb en hnz
    simp [progressMain, hnz, exceptOk]
  · intro rP gP eP ref glb en hnz
    simp [progressMain, hnz, exceptOk]

/-- C6 witness: the analyzer succeeds on a concrete non-string value. -/
theorem claim6_fatal_conditions_witness :
    exceptOk (progressMain ("reference/en_nz.json") ("glb_glb.json") ("en.json")
      (some [("a", Jv.str ("Hello".data))]) (some [("a", Jv.other 0)]) true
      (some [("a", Jv.str ("Hello".data))])) = true :=
  claim6_fatal_conditions.2.2.2.2.2.2.2.1 ("reference/en_nz.json") ("glb_glb.json")
    ("en.json") [("a", Jv.str ("Hello".data))] [("a", Jv.other 0)]
    [("a", Jv.str ("Hello".data))] (by decide)

end Globasa
